import Mathlib

/-!
Verification of the checkpoint-resume training harness in
`ray-rllib/explore-rllib/extras/Extra-Application-Mountain-Car.ipynb`.

The notebook is a linear script: `ray.init()`, clearing the checkpoint root
with `shutil.rmtree(..., ignore_errors=True)`, building a configuration
dictionary by five key assignments, creating a trainer, `agent.restore(...)`,
a bounded training loop (`agent.train()`, appending to `results`,
`episode_data`, `episode_json`, `agent.save(checkpoint_root)`, a formatted
progress print), `ray.shutdown()`, and finally a shell invocation of
`rllib rollout` with a hard-coded checkpoint path and JSON configuration.

The external trainer is modelled as an opaque state machine with fallible
`train` / `save` / `restore` operations; the harness itself is embedded
directly from the notebook cells, recording an event trace so that temporal
claims (call ordering, teardown) can be stated.
-/

namespace Academy

/-! ### Decimal rendering (models Python `str` of an integer) -/

/-- The decimal digit characters. Out-of-range arguments (never produced by
`natToCharsAux`, whose digits are `< 10`) map to a sentinel. -/
def digitChar : Nat → Char
  | 0 => '0' | 1 => '1' | 2 => '2' | 3 => '3' | 4 => '4'
  | 5 => '5' | 6 => '6' | 7 => '7' | 8 => '8' | 9 => '9'
  | _ => '*'

/-- Numeric value of a decimal digit character. -/
def charVal (c : Char) : Nat := c.toNat - 48

/-- Whether a character is a decimal digit. -/
def isDigitCh (c : Char) : Bool := 48 ≤ c.toNat && c.toNat ≤ 57

/-- Big-endian decimal digits of `n`, empty for `n = 0`; `fuel`-bounded
structural recursion (callers pass `fuel := n`, which always suffices). -/
def natToCharsAux : Nat → Nat → List Char
  | 0, _ => []
  | fuel + 1, n =>
    if n = 0 then [] else natToCharsAux fuel (n / 10) ++ [digitChar (n % 10)]

/-- Big-endian decimal digits of `n` (Python `str(n)` for a natural). -/
def natToChars (n : Nat) : List Char :=
  if n = 0 then ['0'] else natToCharsAux n n

/-- Decimal digits of an integer, with a leading minus sign when negative. -/
def intChars (i : Int) : List Char :=
  if i < 0 then '-' :: natToChars i.natAbs else natToChars i.natAbs

/-- Python `str(n)` for a natural number. -/
def natToString (n : Nat) : String := String.mk (natToChars n)

/-- Python `str(i)` for an integer. -/
def intToString (i : Int) : String := String.mk (intChars i)

/-- Left-pad a string with spaces to a minimum width `w`
(Python right-justified field, as in `f-string` numeric fields). -/
def padLeft (w : Nat) (s : String) : String :=
  if s.length < w then String.mk (List.replicate (w - s.length) ' ') ++ s else s

/-- Python `f'{n:3d}'`: decimal in a minimum-width-3 right-justified field. -/
def format3d (n : Nat) : String := padLeft 3 (natToString n)

/-- Python `f'{x:8.4f}'` for an integer-valued metric: four decimal places in
a minimum-width-8 right-justified field. -/
def format84f (i : Int) : String := padLeft 8 (intToString i ++ ".0000")

/-! ### Data model -/

/-- The four metric fields of a `train()` result that the harness reads
(the loop body projects exactly these keys out of the result dict). -/
structure Metrics where
  episode_reward_min : Int
  episode_reward_mean : Int
  episode_reward_max : Int
  episode_len_mean : Int
deriving DecidableEq, Repr

/-- The per-iteration record built in the loop body:
`{'n': n, 'episode_reward_min': ..., 'episode_reward_mean': ...,
'episode_reward_max': ..., 'episode_len_mean': ...}`. -/
structure Episode where
  n : Nat
  episode_reward_min : Int
  episode_reward_mean : Int
  episode_reward_max : Int
  episode_len_mean : Int
deriving DecidableEq, Repr

/-- A configuration value: the notebook assigns one string and four integers. -/
inductive ConfigValue where
  | str (s : String)
  | num (n : Int)
deriving DecidableEq, Repr

/-- A configuration dictionary, insertion-ordered (Python `dict`). -/
abbrev Config := List (String × ConfigValue)

/-- Python `d[k]` lookup on the insertion-ordered dictionary. -/
def lookupKey (cfg : Config) (k : String) : Option ConfigValue :=
  match cfg with
  | [] => none
  | (k', v) :: rest => if k' = k then some v else lookupKey rest k

/-- Python `d[k] = v`: overwrite in place if the key exists, else append. -/
def setKey (cfg : Config) (k : String) (v : ConfigValue) : Config :=
  match cfg with
  | [] => [(k, v)]
  | (k', v') :: rest =>
    if k' = k then (k, v) :: rest else (k', v') :: setKey rest k v

/-- The five assignments performed on the copied default configuration:
`config["log_level"] = "WARN"`, `config["num_workers"] = 4`,
`config["train_batch_size"] = 10000`, `config["sgd_minibatch_size"] = 256`,
`config["evaluation_num_episodes"] = 50`. -/
def applyOverrides (cfg : Config) : Config :=
  setKey (setKey (setKey (setKey (setKey cfg
    "log_level" (.str "WARN"))
    "num_workers" (.num 4))
    "train_batch_size" (.num 10000))
    "sgd_minibatch_size" (.num 256))
    "evaluation_num_episodes" (.num 50)

/-- The recognized configuration overrides as a key-value mapping
(the five keys assigned before the trainer is created). -/
def configOverrides : Config :=
  [("log_level", .str "WARN"),
   ("num_workers", .num 4),
   ("train_batch_size", .num 10000),
   ("sgd_minibatch_size", .num 256),
   ("evaluation_num_episodes", .num 50)]

/-- `checkpoint_root = 'tmp/ppo/mountain-car'`. -/
def checkpoint_root : String := "tmp/ppo/mountain-car"

/-- The JSON `--config` object passed to `rllib rollout`:
`'\x7b"env": "MountainCar-v0", "num_workers":4, "train_batch_size":10000,
"sgd_minibatch_size":256, "evaluation_num_episodes":50\x7d'`. -/
def rolloutConfig : Config :=
  [("env", .str "MountainCar-v0"),
   ("num_workers", .num 4),
   ("train_batch_size", .num 10000),
   ("sgd_minibatch_size", .num 256),
   ("evaluation_num_episodes", .num 50)]

/-- The checkpoint path argument of the `rllib rollout` invocation. -/
def rolloutCheckpointPath : String :=
  "tmp/ppo/mountain-car/checkpoint_200/checkpoint-200"

/-- The checkpoint argument of `agent.restore`. -/
def restoreCheckpointPath : String := "mountain-car-checkpoint/checkpoint-20"

/-! ### JSON parsing (inverse of the serialization below) -/

/-- Split a leading run of decimal digit characters off a character list. -/
def takeDigits : List Char → List Char × List Char
  | [] => ([], [])
  | c :: cs =>
    if isDigitCh c then
      let (ds, r) := takeDigits cs
      (c :: ds, r)
    else ([], c :: cs)

/-- Value of a big-endian digit list. -/
def parseNatChars (l : List Char) : Nat :=
  l.foldl (fun a c => 10 * a + charVal c) 0

/-- Whether the list does not start with a digit (so a greedy digit scan
stops exactly at its head). -/
def headNotDigit : List Char → Bool
  | [] => true
  | c :: _ => !isDigitCh c

/-- Consume an expected literal prefix. -/
def dropLit : List Char → List Char → Option (List Char)
  | [], s => some s
  | _ :: _, [] => none
  | c :: ps, d :: ss => if c = d then dropLit ps ss else none

/-- Parse a natural number (one or more digits). -/
def parseNatPart (s : List Char) : Option (Nat × List Char) :=
  let (ds, r) := takeDigits s
  if ds.isEmpty then none else some (parseNatChars ds, r)

/-- Parse an integer: an optional minus sign, then one or more digits. -/
def parseIntChars (l : List Char) : Option (Int × List Char) :=
  match l with
  | [] => none
  | c :: cs =>
    if c = '-' then
      let (ds, r) := takeDigits cs
      if ds.isEmpty then none else some (-(parseNatChars ds : Int), r)
    else
      let (ds, r) := takeDigits l
      if ds.isEmpty then none else some ((parseNatChars ds : Int), r)

/-! ### The external trainer and the harness state -/

/-- The external trainer capability: opaque state `σ`, fallible `train`,
`save`, `restore` (any of them may raise, modelled as `Except`). `train`
yields a metrics record; `save` takes the checkpoint directory and yields
the checkpoint path. -/
structure Trainer (σ : Type) where
  trainF : σ → Except String (σ × Metrics)
  saveF : σ → String → Except String (σ × String)
  restoreF : σ → String → Except String σ

/-- Observable events of a run, in order: the runtime-context acquisition
(`ray.init`), the trainer calls made by the harness (tagged with the loop
index at the call site), the appending of the per-iteration record, and the
runtime-context teardown (`ray.shutdown`). -/
inductive Event where
  | rayInit
  | restoreCall (path : String)
  | trainCall (n : Nat)
  | appendRecord (n : Nat)
  | saveCall (n : Nat)
  | rayShutdown
deriving DecidableEq, Repr

/-- Whether an event is a `train` or `save` trainer call. -/
def Event.isTrainSave : Event → Bool
  | .trainCall _ => true
  | .saveCall _ => true
  | _ => false

/-- Whether an event is one emitted by the loop body. -/
def Event.isLoopEvent : Event → Bool
  | .trainCall _ => true
  | .appendRecord _ => true
  | .saveCall _ => true
  | _ => false

/-- Whether an event is a `save` trainer call. -/
def Event.isSaveCall : Event → Bool
  | .saveCall _ => true
  | _ => false

/-- Whether an event is a `restore` trainer call. -/
def Event.isRestoreCall : Event → Bool
  | .restoreCall _ => true
  | _ => false

/-- The mutable state of the notebook run: the trainer handle, the
configuration dictionary, the three sequences built by the loop
(`results`, `episode_data`, `episode_json`), the recorded checkpoint paths,
the printed progress lines, and the event trace. -/
structure RunState (σ : Type) where
  agent : σ
  config : Config
  results : List Metrics
  episode_data : List Episode
  episode_json : List String
  saved_paths : List String
  printed : List String
  events : List Event

/-- The literal JSON fragment before the `n` field. -/
def litN : List Char := ("\x7b\"n\": ").data

/-- The literal JSON fragment before the `episode_reward_min` field. -/
def litMin : List Char := (", \"episode_reward_min\": ").data

/-- The literal JSON fragment before the `episode_reward_mean` field. -/
def litMean : List Char := (", \"episode_reward_mean\": ").data

/-- The literal JSON fragment before the `episode_reward_max` field. -/
def litMax : List Char := (", \"episode_reward_max\": ").data

/-- The literal JSON fragment before the `episode_len_mean` field. -/
def litLen : List Char := (", \"episode_len_mean\": ").data

/-- The literal closing brace of the JSON object. -/
def litClose : List Char := ("\x7d").data

/-- JSON serialization of an `Episode`, mirroring `json.dumps(episode)`
with Python's default separators and key insertion order. -/
def encodeEpisodeChars (e : Episode) : List Char :=
  litN ++
    (natToChars e.n ++
      (litMin ++
        (intChars e.episode_reward_min ++
          (litMean ++
            (intChars e.episode_reward_mean ++
              (litMax ++
                (intChars e.episode_reward_max ++
                  (litLen ++
                    (intChars e.episode_len_mean ++ litClose)))))))))

/-- `json.dumps(episode)` as a string. -/
def encodeEpisode (e : Episode) : String := String.mk (encodeEpisodeChars e)

/-- Parse the JSON serialization of an `Episode` back into the record
(the inverse of `encodeEpisodeChars`). -/
def decodeEpisodeChars (s : List Char) : Option Episode :=
  (dropLit litN s).bind fun s =>
  (parseNatPart s).bind fun (n, s) =>
  (dropLit litMin s).bind fun s =>
  (parseIntChars s).bind fun (v1, s) =>
  (dropLit litMean s).bind fun s =>
  (parseIntChars s).bind fun (v2, s) =>
  (dropLit litMax s).bind fun s =>
  (parseIntChars s).bind fun (v3, s) =>
  (dropLit litLen s).bind fun s =>
  (parseIntChars s).bind fun (v4, s) =>
  (dropLit litClose s).bind fun s =>
  if s.isEmpty then some ⟨n, v1, v2, v3, v4⟩ else none

/-- `json.loads` specialised to the episode-record shape. -/
def decodeEpisode (s : String) : Option Episode := decodeEpisodeChars s.data

/-- The progress line printed at the end of each loop iteration, mirroring
`f'\x7bn+1:3d\x7d: Min/Mean/Max reward: \x7b...:8.4f\x7d/\x7b...:8.4f\x7d/\x7b...:8.4f\x7d, len mean: \x7b...:8.4f\x7d. Checkpoint saved to \x7bfile_name\x7d'`. -/
def progressLine (n : Nat) (result : Metrics) (file_name : String) : String :=
  format3d (n + 1) ++ ": Min/Mean/Max reward: " ++
    format84f result.episode_reward_min ++ "/" ++
    format84f result.episode_reward_mean ++ "/" ++
    format84f result.episode_reward_max ++ ", len mean: " ++
    format84f result.episode_len_mean ++ ". Checkpoint saved to " ++ file_name

/-- One iteration of the training loop body:
`result = agent.train()`; `results.append(result)`; build `episode`;
`episode_data.append(episode)`; `episode_json.append(json.dumps(episode))`;
`file_name = agent.save(checkpoint_root)`; `print(...)`. A raised exception
aborts with the state reached so far. -/
def trainOnce {σ : Type} (t : Trainer σ) (root : String) (n : Nat)
    (s : RunState σ) : Except (RunState σ × String) (RunState σ) :=
  match t.trainF s.agent with
  | .error e => .error ({ s with events := s.events ++ [.trainCall n] }, e)
  | .ok (a, result) =>
    let episode : Episode :=
      { n := n,
        episode_reward_min := result.episode_reward_min,
        episode_reward_mean := result.episode_reward_mean,
        episode_reward_max := result.episode_reward_max,
        episode_len_mean := result.episode_len_mean }
    match t.saveF a root with
    | .error e =>
      .error ({ s with
        agent := a,
        results := s.results ++ [result],
        episode_data := s.episode_data ++ [episode],
        episode_json := s.episode_json ++ [encodeEpisode episode],
        events := s.events ++ [.trainCall n, .appendRecord n, .saveCall n] }, e)
    | .ok (a2, file_name) =>
      .ok { s with
        agent := a2,
        results := s.results ++ [result],
        episode_data := s.episode_data ++ [episode],
        episode_json := s.episode_json ++ [encodeEpisode episode],
        saved_paths := s.saved_paths ++ [file_name],
        printed := s.printed ++ [progressLine n result file_name],
        events := s.events ++ [.trainCall n, .appendRecord n, .saveCall n] }

/-- `for n in range(...)`: run `m` more iterations starting at index `n`.
Returns the final state and the raised exception, if any (`none` = clean
completion). -/
def trainLoop {σ : Type} (t : Trainer σ) (root : String) :
    Nat → Nat → RunState σ → RunState σ × Option String
  | 0, _, s => (s, none)
  | m + 1, n, s =>
    match trainOnce t root n s with
    | .error (s, e) => (s, some e)
    | .ok s => trainLoop t root m (n + 1) s

/-- Append the teardown event on the clean-completion path only: the script
reaches `ray.shutdown()` only when no earlier cell raised. -/
def finishRun {σ : Type} : RunState σ × Option String → RunState σ × Option String
  | (s, none) => ({ s with events := s.events ++ [.rayShutdown] }, none)
  | (s, some e) => (s, some e)

/-- The whole notebook run: `ray.init()`, configuration overrides, trainer
creation, `agent.restore(prior)` when a prior checkpoint is supplied, the
training loop of `nIter` iterations, and `ray.shutdown()` on the
clean-completion path (there is no try/finally in the script, so an
exception anywhere stops execution before the shutdown cell). -/
def runHarness {σ : Type} (t : Trainer σ) (root : String)
    (prior : Option String) (nIter : Nat) (cfg0 : Config) (a0 : σ) :
    RunState σ × Option String :=
  match prior with
  | none =>
    finishRun (trainLoop t root nIter 0
      { agent := a0, config := applyOverrides cfg0,
        results := [], episode_data := [], episode_json := [],
        saved_paths := [], printed := [], events := [.rayInit] })
  | some p =>
    match t.restoreF a0 p with
    | .error e =>
      ({ agent := a0, config := applyOverrides cfg0,
         results := [], episode_data := [], episode_json := [],
         saved_paths := [], printed := [],
         events := [.rayInit, .restoreCall p] }, some e)
    | .ok a =>
      finishRun (trainLoop t root nIter 0
        { agent := a, config := applyOverrides cfg0,
          results := [], episode_data := [], episode_json := [],
          saved_paths := [], printed := [],
          events := [.rayInit, .restoreCall p] })

/-- A deterministic fake trainer double for the concrete scenarios: the
state counts completed `train` calls; `train` always succeeds and returns
the fixed metrics record of the spec scenario; `save` returns a fresh
checkpoint path under the given directory; `restore` succeeds. -/
def fakeTrainer : Trainer Nat :=
  { trainF := fun a => .ok (a + 1, ⟨-200, -150, -100, 200⟩),
    saveF := fun a d => .ok (a, d ++ "/checkpoint-" ++ natToString a),
    restoreF := fun a _ => .ok a }

/-- A fake trainer double whose `train` raises on its `k`-th call
(0-indexed); `save` and `restore` always succeed. -/
def failingTrainer (k : Nat) : Trainer Nat :=
  { trainF := fun a =>
      if a = k then .error "train failed" else .ok (a + 1, ⟨-200, -150, -100, 200⟩),
    saveF := fun a d => .ok (a, d ++ "/checkpoint-" ++ natToString a),
    restoreF := fun a _ => .ok a }

/-- The three events emitted by one completed loop iteration. -/
def iterEvents (n : Nat) : List Event := [.trainCall n, .appendRecord n, .saveCall n]

/-- The events of `m` completed loop iterations starting at index `n`. -/
def loopEvents (n m : Nat) : List Event := (List.range' n m).flatMap iterEvents

/-- The restore events of a run: one `restoreCall` when a prior checkpoint is
supplied, none otherwise. -/
def restoreEvents : Option String → List Event
  | none => []
  | some p => [.restoreCall p]

/-- Placeholder episode record for out-of-range `getD` indexing. -/
def dummyEpisode : Episode := ⟨0, 0, 0, 0, 0⟩

/-- Placeholder metrics record for out-of-range `getD` indexing. -/
def dummyMetrics : Metrics := ⟨0, 0, 0, 0⟩

/-- The relation the loop maintains between `results`, `episode_data` and
`episode_json`: equal lengths; each JSON string is the serialization of the
corresponding episode record and parses back to exactly that record; the
record's `n` field is its position; and its four statistic fields equal the
corresponding fields of the metrics record at the same position. -/
def recordsInv {σ : Type} (s : RunState σ) : Prop :=
  s.results.length = s.episode_data.length ∧
  s.episode_data.length = s.episode_json.length ∧
  ∀ i, i < s.results.length →
    s.episode_json.getD i "" = encodeEpisode (s.episode_data.getD i dummyEpisode) ∧
    decodeEpisode (s.episode_json.getD i "") = some (s.episode_data.getD i dummyEpisode) ∧
    (s.episode_data.getD i dummyEpisode).n = i ∧
    (s.episode_data.getD i dummyEpisode).episode_reward_min =
      (s.results.getD i dummyMetrics).episode_reward_min ∧
    (s.episode_data.getD i dummyEpisode).episode_reward_mean =
      (s.results.getD i dummyMetrics).episode_reward_mean ∧
    (s.episode_data.getD i dummyEpisode).episode_reward_max =
      (s.results.getD i dummyMetrics).episode_reward_max ∧
    (s.episode_data.getD i dummyEpisode).episode_len_mean =
      (s.results.getD i dummyMetrics).episode_len_mean

/-! ### Filesystem model for the checkpoint-root clearing -/

/-- Modelled from the spec: the recursive directory removal used at the
clean-up cell is Python's `shutil.rmtree`, which is outside this repository;
the spec describes the call as "recursively removed, tolerating absence".
The filesystem is a list of existing paths; removal deletes the path and
everything under it; a missing path is an error unless `ignore_errors`. -/
def rmtree (fs : List String) (path : String) (ignore_errors : Bool) :
    Except String (List String) :=
  if fs.contains path then
    .ok (fs.filter (fun q => !(q == path || (path ++ "/").isPrefixOf q)))
  else if ignore_errors then .ok fs
  else .error "FileNotFoundError"

/-- `shutil.rmtree(checkpoint_root, ignore_errors=True, onerror=None)`. -/
def clearOldRuns (fs : List String) : Except String (List String) :=
  rmtree fs checkpoint_root true

/-! ### Lemmas: decimal rendering and parsing round-trip -/

theorem isDigitCh_digitChar (d : Nat) (h : d < 10) : isDigitCh (digitChar d) = true := by
  interval_cases d <;> rfl

theorem charVal_digitChar (d : Nat) (h : d < 10) : charVal (digitChar d) = d := by
  interval_cases d <;> rfl

theorem natToCharsAux_zero (fuel : Nat) : natToCharsAux fuel 0 = [] := by
  cases fuel <;> simp [natToCharsAux]

theorem natToCharsAux_digits (fuel : Nat) :
    ∀ n, ∀ c ∈ natToCharsAux fuel n, isDigitCh c = true := by
  induction fuel with
  | zero => intro n c hc; simp [natToCharsAux] at hc
  | succ fuel ih =>
    intro n c hc
    by_cases hn : n = 0
    · simp [natToCharsAux, hn] at hc
    · rw [natToCharsAux, if_neg hn] at hc
      rcases List.mem_append.mp hc with hc | hc
      · exact ih _ c hc
      · rw [List.mem_singleton.mp hc]
        exact isDigitCh_digitChar _ (Nat.mod_lt _ (by omega))

theorem natToChars_digits (n : Nat) : ∀ c ∈ natToChars n, isDigitCh c = true := by
  intro c hc
  by_cases hn : n = 0
  · simp [natToChars, hn] at hc
    rw [hc]; rfl
  · rw [natToChars, if_neg hn] at hc
    exact natToCharsAux_digits n n c hc

theorem natToChars_ne_nil (n : Nat) : natToChars n ≠ [] := by
  by_cases hn : n = 0
  · simp [natToChars, hn]
  · rw [natToChars, if_neg hn]
    cases n with
    | zero => exact absurd rfl hn
    | succ m =>
      rw [natToCharsAux, if_neg hn]
      simp

theorem foldl_natToCharsAux (fuel : Nat) :
    ∀ n a, n ≤ fuel → n ≠ 0 →
      List.foldl (fun a c => 10 * a + charVal c) a (natToCharsAux fuel n) =
        a * 10 ^ (natToCharsAux fuel n).length + n := by
  induction fuel with
  | zero => intro n a h h0; omega
  | succ fuel ih =>
    intro n a h h0
    rw [natToCharsAux, if_neg h0, List.foldl_append, List.length_append]
    by_cases hq : n / 10 = 0
    · rw [hq, natToCharsAux_zero]
      simp only [List.foldl_nil, List.foldl_cons, List.length_nil, List.length_cons]
      rw [charVal_digitChar _ (Nat.mod_lt _ (by omega))]
      have hmod : n % 10 = n := Nat.mod_eq_of_lt (by omega)
      rw [hmod]
      norm_num
      ring
    · have hle : n / 10 ≤ fuel := by omega
      rw [ih _ a hle hq]
      simp only [List.foldl_cons, List.foldl_nil, List.length_cons, List.length_nil]
      rw [charVal_digitChar _ (Nat.mod_lt _ (by omega))]
      have hmod : 10 * (n / 10) + n % 10 = n := Nat.div_add_mod n 10
      calc 10 * (a * 10 ^ (natToCharsAux fuel (n / 10)).length + n / 10) + n % 10
          = a * (10 ^ (natToCharsAux fuel (n / 10)).length * 10) +
              (10 * (n / 10) + n % 10) := by ring
        _ = a * 10 ^ ((natToCharsAux fuel (n / 10)).length + (0 + 1)) + n := by
              rw [hmod, ← pow_succ]

theorem parseNatChars_natToChars (n : Nat) : parseNatChars (natToChars n) = n := by
  by_cases hn : n = 0
  · subst hn; rfl
  · rw [natToChars, if_neg hn]
    unfold parseNatChars
    rw [foldl_natToCharsAux n n 0 le_rfl hn]
    simp

theorem takeDigits_append (ds r : List Char) (hd : ∀ c ∈ ds, isDigitCh c = true)
    (hr : headNotDigit r = true) : takeDigits (ds ++ r) = (ds, r) := by
  induction ds with
  | nil =>
    simp only [List.nil_append]
    cases r with
    | nil => rfl
    | cons c cs =>
      have hc : isDigitCh c = false := by
        simpa [headNotDigit] using hr
      simp [takeDigits, hc]
  | cons c cs ih =>
    have hc : isDigitCh c = true := hd c (List.mem_cons_self c cs)
    rw [List.cons_append, takeDigits, if_pos hc,
      ih (fun x hx => hd x (List.mem_cons_of_mem c hx))]

theorem dropLit_self_append (p r : List Char) : dropLit p (p ++ r) = some r := by
  induction p with
  | nil => rfl
  | cons c ps ih => simp [dropLit, ih]

theorem parseNatPart_append (n : Nat) (r : List Char) (hr : headNotDigit r = true) :
    parseNatPart (natToChars n ++ r) = some (n, r) := by
  unfold parseNatPart
  rw [takeDigits_append _ _ (natToChars_digits n) hr]
  simp [List.isEmpty_iff, natToChars_ne_nil n, parseNatChars_natToChars n]

theorem parseIntChars_append (i : Int) (r : List Char) (hr : headNotDigit r = true) :
    parseIntChars (intChars i ++ r) = some (i, r) := by
  have hEmpty : ∀ m : Nat, ¬((natToChars m).isEmpty = true) := by
    intro m h
    exact natToChars_ne_nil m (List.isEmpty_iff.mp h)
  by_cases hi : i < 0
  · rw [intChars, if_pos hi, List.cons_append, parseIntChars, if_pos rfl,
      takeDigits_append _ _ (natToChars_digits _) hr]
    show (if (natToChars i.natAbs).isEmpty = true then none
      else some (-(↑(parseNatChars (natToChars i.natAbs)) : Int), r)) = some (i, r)
    rw [if_neg (hEmpty _), parseNatChars_natToChars]
    have hv : -((i.natAbs : Nat) : Int) = i := by omega
    rw [hv]
  · rw [intChars, if_neg hi]
    have hne := natToChars_ne_nil i.natAbs
    obtain ⟨c, cs, hcc⟩ : ∃ c cs, natToChars i.natAbs = c :: cs := by
      cases h : natToChars i.natAbs with
      | nil => exact absurd h hne
      | cons c cs => exact ⟨c, cs, rfl⟩
    rw [hcc, List.cons_append, parseIntChars]
    have hc : isDigitCh c = true := by
      apply natToChars_digits i.natAbs
      rw [hcc]; exact List.mem_cons_self c cs
    have hcm : ¬(c = '-') := by
      intro h; rw [h] at hc; exact absurd hc (by decide)
    rw [if_neg hcm, ← List.cons_append, ← hcc,
      takeDigits_append _ _ (natToChars_digits _) hr]
    show (if (natToChars i.natAbs).isEmpty = true then none
      else some ((↑(parseNatChars (natToChars i.natAbs)) : Int), r)) = some (i, r)
    rw [if_neg (hEmpty _), parseNatChars_natToChars]
    have hv : ((i.natAbs : Nat) : Int) = i := by omega
    rw [hv]

theorem parseNatPart_min (n : Nat) (X : List Char) :
    parseNatPart (natToChars n ++ (litMin ++ X)) = some (n, litMin ++ X) :=
  parseNatPart_append _ _ rfl

theorem parseIntChars_mean (i : Int) (X : List Char) :
    parseIntChars (intChars i ++ (litMean ++ X)) = some (i, litMean ++ X) :=
  parseIntChars_append _ _ rfl

theorem parseIntChars_max (i : Int) (X : List Char) :
    parseIntChars (intChars i ++ (litMax ++ X)) = some (i, litMax ++ X) :=
  parseIntChars_append _ _ rfl

theorem parseIntChars_len (i : Int) (X : List Char) :
    parseIntChars (intChars i ++ (litLen ++ X)) = some (i, litLen ++ X) :=
  parseIntChars_append _ _ rfl

theorem parseIntChars_close (i : Int) :
    parseIntChars (intChars i ++ litClose) = some (i, litClose) :=
  parseIntChars_append _ _ rfl

theorem dropLit_close : dropLit litClose litClose = some [] := rfl

theorem decodeEpisode_encodeEpisode (e : Episode) :
    decodeEpisode (encodeEpisode e) = some e := by
  cases e with
  | mk n v1 v2 v3 v4 =>
    show decodeEpisodeChars (encodeEpisodeChars ⟨n, v1, v2, v3, v4⟩) = _
    simp only [decodeEpisodeChars, encodeEpisodeChars, dropLit_self_append,
      parseNatPart_min, parseIntChars_mean, parseIntChars_max, parseIntChars_len,
      parseIntChars_close, dropLit_close, Option.some_bind]
    rfl

/-! ### Lemmas: the event pattern of the loop -/

theorem loopEvents_zero (n : Nat) : loopEvents n 0 = [] := rfl

theorem loopEvents_succ (n m : Nat) :
    loopEvents n (m + 1) = iterEvents n ++ loopEvents (n + 1) m := by
  rw [loopEvents, loopEvents, List.range'_succ, List.flatMap_cons]

theorem saveCall_mem_loopEvents (K n m : Nat) :
    Event.saveCall K ∈ loopEvents n m → n ≤ K ∧ K < n + m := by
  intro h
  rw [loopEvents, List.mem_flatMap] at h
  obtain ⟨a, ha, he⟩ := h
  rw [List.mem_range'] at ha
  obtain ⟨i, hi, rfl⟩ := ha
  simp [iterEvents] at he
  omega

theorem loopEvents_all_loop (n m : Nat) :
    ∀ e ∈ loopEvents n m, e.isLoopEvent = true := by
  intro e he
  rw [loopEvents, List.mem_flatMap] at he
  obtain ⟨a, _, he⟩ := he
  simp [iterEvents] at he
  rcases he with rfl | rfl | rfl <;> rfl

/-! ### Lemmas: one loop iteration -/

theorem trainOnce_ok {σ : Type} (t : Trainer σ) (root : String) (n : Nat)
    (s s' : RunState σ) (h : trainOnce t root n s = .ok s') :
    ∃ result file_name,
      s'.config = s.config ∧
      s'.results = s.results ++ [result] ∧
      s'.episode_data = s.episode_data ++
        [⟨n, result.episode_reward_min, result.episode_reward_mean,
          result.episode_reward_max, result.episode_len_mean⟩] ∧
      s'.episode_json = s.episode_json ++
        [encodeEpisode ⟨n, result.episode_reward_min, result.episode_reward_mean,
          result.episode_reward_max, result.episode_len_mean⟩] ∧
      s'.saved_paths = s.saved_paths ++ [file_name] ∧
      s'.printed = s.printed ++ [progressLine n result file_name] ∧
      s'.events = s.events ++ iterEvents n := by
  cases ht : t.trainF s.agent with
  | error e => simp only [trainOnce, ht] at h; exact Except.noConfusion h
  | ok p =>
    obtain ⟨a, result⟩ := p
    cases hs : t.saveF a root with
    | error e => simp only [trainOnce, ht, hs] at h; exact Except.noConfusion h
    | ok q =>
      obtain ⟨a2, fn⟩ := q
      simp only [trainOnce, ht, hs, Except.ok.injEq] at h
      subst h
      exact ⟨result, fn, rfl, rfl, rfl, rfl, rfl, rfl, by simp [iterEvents]⟩

theorem trainOnce_err {σ : Type} (t : Trainer σ) (root : String) (n : Nat)
    (s s' : RunState σ) (e : String) (h : trainOnce t root n s = .error (s', e)) :
    s'.config = s.config ∧
    ((t.trainF s.agent = .error e ∧
      s'.results = s.results ∧ s'.episode_data = s.episode_data ∧
      s'.episode_json = s.episode_json ∧ s'.saved_paths = s.saved_paths ∧
      s'.printed = s.printed ∧ s'.events = s.events ++ [.trainCall n]) ∨
     (∃ a result, t.trainF s.agent = .ok (a, result) ∧ t.saveF a root = .error e ∧
      s'.results = s.results ++ [result] ∧
      s'.episode_data = s.episode_data ++
        [⟨n, result.episode_reward_min, result.episode_reward_mean,
          result.episode_reward_max, result.episode_len_mean⟩] ∧
      s'.episode_json = s.episode_json ++
        [encodeEpisode ⟨n, result.episode_reward_min, result.episode_reward_mean,
          result.episode_reward_max, result.episode_len_mean⟩] ∧
      s'.saved_paths = s.saved_paths ∧ s'.printed = s.printed ∧
      s'.events = s.events ++ iterEvents n)) := by
  cases ht : t.trainF s.agent with
  | error e1 =>
    simp only [trainOnce, ht, Except.error.injEq, Prod.mk.injEq] at h
    obtain ⟨h1, h2⟩ := h
    subst h1
    subst h2
    exact ⟨rfl, .inl ⟨rfl, rfl, rfl, rfl, rfl, rfl, rfl⟩⟩
  | ok p =>
    obtain ⟨a, result⟩ := p
    cases hs : t.saveF a root with
    | ok q => simp only [trainOnce, ht, hs] at h; exact Except.noConfusion h
    | error e1 =>
      simp only [trainOnce, ht, hs, Except.error.injEq, Prod.mk.injEq] at h
      obtain ⟨h1, h2⟩ := h
      subst h1
      subst h2
      exact ⟨rfl, .inr ⟨a, result, rfl, hs, rfl, rfl, rfl, rfl, rfl, rfl⟩⟩

/-! ### Lemmas: the whole loop -/

theorem iterEvents_all_loop (n : Nat) :
    ∀ e ∈ iterEvents n, e.isLoopEvent = true := by
  intro e he
  simp [iterEvents] at he
  rcases he with rfl | rfl | rfl <;> rfl

theorem trainLoop_ok {σ : Type} (t : Trainer σ) (root : String) :
    ∀ (m n : Nat) (s s' : RunState σ),
      trainLoop t root m n s = (s', none) →
      s'.config = s.config ∧
      s'.results.length = s.results.length + m ∧
      s'.episode_data.length = s.episode_data.length + m ∧
      s'.episode_json.length = s.episode_json.length + m ∧
      s'.saved_paths.length = s.saved_paths.length + m ∧
      s'.printed.length = s.printed.length + m ∧
      s'.episode_data.map Episode.n = s.episode_data.map Episode.n ++ List.range' n m ∧
      s'.events = s.events ++ loopEvents n m := by
  intro m
  induction m with
  | zero =>
    intro n s s' h
    simp only [trainLoop, Prod.mk.injEq] at h
    obtain ⟨h1, -⟩ := h
    subst h1
    simp [loopEvents]
  | succ m ih =>
    intro n s s' h
    rw [trainLoop] at h
    cases ho : trainOnce t root n s with
    | error pe =>
      obtain ⟨s1, e⟩ := pe
      simp only [ho, Prod.mk.injEq] at h
      exact absurd h.2 (by simp)
    | ok s1 =>
      simp only [ho] at h
      obtain ⟨result, fn, c1, hr, hd, hj, hp, hpr, he⟩ := trainOnce_ok t root n s s1 ho
      obtain ⟨c2, r2, d2, j2, p2, pr2, m2, e2⟩ := ih (n + 1) s1 s' h
      refine ⟨c2.trans c1, ?_, ?_, ?_, ?_, ?_, ?_, ?_⟩
      · rw [r2, hr]; simp; omega
      · rw [d2, hd]; simp; omega
      · rw [j2, hj]; simp; omega
      · rw [p2, hp]; simp; omega
      · rw [pr2, hpr]; simp; omega
      · rw [m2, hd, List.range'_succ]
        simp
      · rw [e2, he, List.append_assoc, loopEvents_succ]

theorem trainLoop_config {σ : Type} (t : Trainer σ) (root : String) :
    ∀ (m n : Nat) (s : RunState σ),
      ((trainLoop t root m n s).fst).config = s.config := by
  intro m
  induction m with
  | zero => intro n s; rfl
  | succ m ih =>
    intro n s
    rw [trainLoop]
    cases ho : trainOnce t root n s with
    | error pe =>
      obtain ⟨s1, e⟩ := pe
      exact (trainOnce_err t root n s s1 e ho).1
    | ok s1 =>
      obtain ⟨result, fn, c1, -⟩ := trainOnce_ok t root n s s1 ho
      exact (ih (n + 1) s1).trans c1

theorem trainLoop_events_tail {σ : Type} (t : Trainer σ) (root : String) :
    ∀ (m n : Nat) (s : RunState σ),
      ∃ tail, (trainLoop t root m n s).fst.events = s.events ++ tail ∧
        ∀ e ∈ tail, e.isLoopEvent = true := by
  intro m
  induction m with
  | zero => intro n s; exact ⟨[], by simp [trainLoop], by simp⟩
  | succ m ih =>
    intro n s
    rw [trainLoop]
    cases ho : trainOnce t root n s with
    | error pe =>
      obtain ⟨s1, e⟩ := pe
      obtain ⟨-, herr⟩ := trainOnce_err t root n s s1 e ho
      rcases herr with ⟨-, -, -, -, -, -, he⟩ | ⟨a, result, -, -, -, -, -, -, -, he⟩
      · refine ⟨[.trainCall n], he, ?_⟩
        intro x hx
        simp at hx
        subst hx
        rfl
      · exact ⟨iterEvents n, he, iterEvents_all_loop n⟩
    | ok s1 =>
      obtain ⟨tail, h1, h2⟩ := ih (n + 1) s1
      obtain ⟨result, fn, -, -, -, -, -, -, he⟩ := trainOnce_ok t root n s s1 ho
      refine ⟨iterEvents n ++ tail, ?_, ?_⟩
      · show (trainLoop t root m (n + 1) s1).fst.events = _
        rw [h1, he, List.append_assoc]
      · intro x hx
        rcases List.mem_append.mp hx with hx | hx
        · exact iterEvents_all_loop n x hx
        · exact h2 x hx

theorem trainLoop_err {σ : Type} (t : Trainer σ) (root : String)
    (hsave : ∀ a d, ∃ p, t.saveF a d = Except.ok p) :
    ∀ (m n : Nat) (s s' : RunState σ) (e : String),
      trainLoop t root m n s = (s', some e) →
      ∃ j, j < m ∧
        s'.config = s.config ∧
        s'.results.length = s.results.length + j ∧
        s'.saved_paths.length = s.saved_paths.length + j ∧
        s'.events = s.events ++ (loopEvents n j ++ [.trainCall (n + j)]) := by
  intro m
  induction m with
  | zero =>
    intro n s s' e h
    simp only [trainLoop, Prod.mk.injEq] at h
    exact absurd h.2 (by simp)
  | succ m ih =>
    intro n s s' e h
    rw [trainLoop] at h
    cases ho : trainOnce t root n s with
    | error pe =>
      obtain ⟨s1, e1⟩ := pe
      simp only [ho, Prod.mk.injEq, Option.some.injEq] at h
      obtain ⟨h1, h2⟩ := h
      subst h1
      subst h2
      obtain ⟨hc, herr⟩ := trainOnce_err t root n s s1 e1 ho
      rcases herr with ⟨-, hres, -, -, hsp, -, he⟩ | ⟨a, result, -, hsv, -⟩
      · refine ⟨0, by omega, hc, by simp [hres], by simp [hsp], ?_⟩
        rw [he]
        simp [loopEvents]
      · obtain ⟨p, hp⟩ := hsave a root
        rw [hp] at hsv
        exact Except.noConfusion hsv
    | ok s1 =>
      simp only [ho] at h
      obtain ⟨j, hj, hc, hr, hsp, hev⟩ := ih (n + 1) s1 s' e h
      obtain ⟨result, fn, c1, hres, -, -, hps, -, he⟩ := trainOnce_ok t root n s s1 ho
      refine ⟨j + 1, by omega, hc.trans c1, ?_, ?_, ?_⟩
      · rw [hr, hres]; simp; omega
      · rw [hsp, hps]; simp; omega
      · rw [hev, he, List.append_assoc, loopEvents_succ]
        have harith : n + 1 + j = n + (j + 1) := by omega
        rw [harith, List.append_assoc]

/-! ### Lemmas: the records invariant -/

theorem recordsInv_congr {σ σ2 : Type} (s : RunState σ) (s2 : RunState σ2)
    (hr : s2.results = s.results) (hd : s2.episode_data = s.episode_data)
    (hj : s2.episode_json = s.episode_json) (h : recordsInv s) : recordsInv s2 := by
  unfold recordsInv at h ⊢
  rw [hr, hd, hj]
  exact h

theorem recordsInv_step {σ σ2 : Type} (s : RunState σ) (s2 : RunState σ2)
    (result : Metrics) (n : Nat)
    (hr : s2.results = s.results ++ [result])
    (hd : s2.episode_data = s.episode_data ++
      [⟨n, result.episode_reward_min, result.episode_reward_mean,
        result.episode_reward_max, result.episode_len_mean⟩])
    (hj : s2.episode_json = s.episode_json ++
      [encodeEpisode ⟨n, result.episode_reward_min, result.episode_reward_mean,
        result.episode_reward_max, result.episode_len_mean⟩])
    (hn : n = s.results.length)
    (hInv : recordsInv s) : recordsInv s2 := by
  obtain ⟨hlen1, hlen2, hidx⟩ := hInv
  refine ⟨by rw [hr, hd]; simp [hlen1], by rw [hd, hj]; simp [hlen2], ?_⟩
  intro i hi
  rw [hr, List.length_append, List.length_singleton] at hi
  rw [hr, hd, hj]
  by_cases hlt : i < s.results.length
  · rw [List.getD_append _ _ _ _ hlt,
      List.getD_append _ _ _ _ (by omega : i < s.episode_data.length),
      List.getD_append _ _ _ _ (by omega : i < s.episode_json.length)]
    exact hidx i hlt
  · have hieq : i = s.results.length := by omega
    subst hieq
    rw [List.getD_append_right _ _ _ _ (le_refl _),
      List.getD_append_right _ _ _ _ (by omega : s.episode_data.length ≤ s.results.length),
      List.getD_append_right _ _ _ _ (by omega : s.episode_json.length ≤ s.results.length)]
    have hz1 : s.results.length - s.results.length = 0 := by omega
    have hz2 : s.results.length - s.episode_data.length = 0 := by omega
    have hz3 : s.results.length - s.episode_json.length = 0 := by omega
    rw [hz1, hz2, hz3]
    refine ⟨rfl, decodeEpisode_encodeEpisode _, ?_, rfl, rfl, rfl, rfl⟩
    simpa using hn

theorem trainOnce_recordsInv {σ : Type} (t : Trainer σ) (root : String) (n : Nat)
    (s : RunState σ) (hInv : recordsInv s) (hn : n = s.results.length) :
    (∀ s1, trainOnce t root n s = .ok s1 →
      recordsInv s1 ∧ s1.results.length = s.results.length + 1) ∧
    (∀ s1 e, trainOnce t root n s = .error (s1, e) → recordsInv s1) := by
  constructor
  · intro s1 h
    obtain ⟨result, fn, -, hr, hd, hj, -⟩ := trainOnce_ok t root n s s1 h
    exact ⟨recordsInv_step s s1 result n hr hd hj hn ⟨hInv.1, hInv.2.1, hInv.2.2⟩,
      by rw [hr]; simp⟩
  · intro s1 e h
    obtain ⟨-, herr⟩ := trainOnce_err t root n s s1 e h
    rcases herr with ⟨-, hr, hd, hj, -⟩ | ⟨a, result, -, -, hr, hd, hj, -⟩
    · exact recordsInv_congr s s1 hr hd hj ⟨hInv.1, hInv.2.1, hInv.2.2⟩
    · exact recordsInv_step s s1 result n hr hd hj hn ⟨hInv.1, hInv.2.1, hInv.2.2⟩

theorem trainLoop_recordsInv {σ : Type} (t : Trainer σ) (root : String) :
    ∀ (m n : Nat) (s : RunState σ), recordsInv s → n = s.results.length →
      recordsInv (trainLoop t root m n s).fst := by
  intro m
  induction m with
  | zero => intro n s hInv _; exact hInv
  | succ m ih =>
    intro n s hInv hn
    rw [trainLoop]
    cases ho : trainOnce t root n s with
    | error pe =>
      obtain ⟨s1, e⟩ := pe
      exact (trainOnce_recordsInv t root n s hInv hn).2 s1 e ho
    | ok s1 =>
      obtain ⟨h1, h2⟩ := (trainOnce_recordsInv t root n s hInv hn).1 s1 ho
      exact ih (n + 1) s1 h1 (by omega)

/-! ### Lemmas: the whole run -/

theorem runHarness_ok {σ : Type} (t : Trainer σ) (root : String)
    (prior : Option String) (N : Nat) (cfg : Config) (a0 : σ) (s' : RunState σ)
    (h : runHarness t root prior N cfg a0 = (s', none)) :
    s'.config = applyOverrides cfg ∧
    s'.results.length = N ∧
    s'.episode_data.length = N ∧
    s'.episode_json.length = N ∧
    s'.saved_paths.length = N ∧
    s'.printed.length = N ∧
    s'.episode_data.map Episode.n = List.range N ∧
    s'.events = [Event.rayInit] ++ restoreEvents prior ++ loopEvents 0 N ++
      [Event.rayShutdown] := by
  cases prior with
  | none =>
    simp only [runHarness] at h
    cases hl : trainLoop t root N 0
        { agent := a0, config := applyOverrides cfg,
          results := [], episode_data := [], episode_json := [],
          saved_paths := [], printed := [], events := [.rayInit] } with
    | mk s1 err =>
      rw [hl] at h
      cases err with
      | some e => simp only [finishRun, Prod.mk.injEq] at h; exact absurd h.2 (by simp)
      | none =>
        simp only [finishRun, Prod.mk.injEq] at h
        obtain ⟨h1, -⟩ := h
        subst h1
        obtain ⟨c1, r1, d1, j1, p1, pr1, m1, e1⟩ := trainLoop_ok t root N 0 _ _ hl
        refine ⟨c1, by simpa using r1, by simpa using d1, by simpa using j1,
          by simpa using p1, by simpa using pr1, ?_, ?_⟩
        · show s1.episode_data.map Episode.n = _
          rw [m1]
          simp [List.range_eq_range']
        · show s1.events ++ [Event.rayShutdown] = _
          rw [e1]
          simp [restoreEvents]
  | some p =>
    simp only [runHarness] at h
    cases hres : t.restoreF a0 p with
    | error e =>
      simp only [hres, Prod.mk.injEq] at h
      exact absurd h.2 (by simp)
    | ok a =>
      simp only [hres] at h
      cases hl : trainLoop t root N 0
          { agent := a, config := applyOverrides cfg,
            results := [], episode_data := [], episode_json := [],
            saved_paths := [], printed := [],
            events := [.rayInit, .restoreCall p] } with
      | mk s1 err =>
        rw [hl] at h
        cases err with
        | some e => simp only [finishRun, Prod.mk.injEq] at h; exact absurd h.2 (by simp)
        | none =>
          simp only [finishRun, Prod.mk.injEq] at h
          obtain ⟨h1, -⟩ := h
          subst h1
          obtain ⟨c1, r1, d1, j1, p1, pr1, m1, e1⟩ := trainLoop_ok t root N 0 _ _ hl
          refine ⟨c1, by simpa using r1, by simpa using d1, by simpa using j1,
            by simpa using p1, by simpa using pr1, ?_, ?_⟩
          · show s1.episode_data.map Episode.n = _
            rw [m1]
            simp [List.range_eq_range']
          · show s1.events ++ [Event.rayShutdown] = _
            rw [e1]
            simp [restoreEvents]

/-! ### Lemmas: projections of the event trace -/

theorem filter_trainSave_loopEvents :
    ∀ (m n : Nat), (loopEvents n m).filter Event.isTrainSave =
      (List.range' n m).flatMap (fun k => [Event.trainCall k, Event.saveCall k]) := by
  intro m
  induction m with
  | zero => intro n; rfl
  | succ m ih =>
    intro n
    rw [loopEvents_succ, List.filter_append, List.range'_succ, List.flatMap_cons, ih (n + 1)]
    rfl

theorem filter_saveCall_loopEvents :
    ∀ (m n : Nat), (loopEvents n m).filter Event.isSaveCall =
      (List.range' n m).map Event.saveCall := by
  intro m
  induction m with
  | zero => intro n; rfl
  | succ m ih =>
    intro n
    rw [loopEvents_succ, List.filter_append, List.range'_succ, List.map_cons, ih (n + 1)]
    rfl

theorem no_restoreCall_of_loop (e : Event) (h : e.isLoopEvent = true) :
    e.isRestoreCall = false := by
  cases e <;> first | rfl | exact absurd h (by simp [Event.isLoopEvent])

theorem no_shutdown_of_loop (e : Event) (h : e.isLoopEvent = true) :
    e ≠ Event.rayShutdown := by
  cases e <;> simp_all [Event.isLoopEvent]

theorem saveCall_not_mem_failTrace (K j : Nat) (prior : Option String) (hK : j ≤ K) :
    Event.saveCall K ∉
      [Event.rayInit] ++ restoreEvents prior ++
        (loopEvents 0 j ++ [Event.trainCall j]) := by
  intro hmem
  rcases List.mem_append.mp hmem with hmem | hmem
  · rcases List.mem_append.mp hmem with hmem | hmem
    · simp at hmem
    · cases prior <;> simp [restoreEvents] at hmem
  · rcases List.mem_append.mp hmem with hmem | hmem
    · have := saveCall_mem_loopEvents K 0 j hmem
      omega
    · simp at hmem

/-! ### Lemmas: configuration dictionary -/

theorem lookupKey_setKey_same : ∀ (cfg : Config) (k : String) (v : ConfigValue),
    lookupKey (setKey cfg k v) k = some v := by
  intro cfg k v
  induction cfg with
  | nil => simp [setKey, lookupKey]
  | cons p rest ih =>
    obtain ⟨k1, v1⟩ := p
    by_cases h : k1 = k
    · subst h; simp [setKey, lookupKey]
    · simp [setKey, lookupKey, h, ih]

theorem lookupKey_setKey_ne : ∀ (cfg : Config) (k : String) (v : ConfigValue)
    (k2 : String), k ≠ k2 → lookupKey (setKey cfg k v) k2 = lookupKey cfg k2 := by
  intro cfg k v k2 hne
  induction cfg with
  | nil => simp [setKey, lookupKey, hne]
  | cons p rest ih =>
    obtain ⟨k1, v1⟩ := p
    by_cases h : k1 = k
    · subst h; simp [setKey, lookupKey, hne]
    · simp only [setKey, if_neg h]
      by_cases h2 : k1 = k2
      · subst h2; simp [lookupKey]
      · simp [lookupKey, h2, ih]

/-! ### Claims -/

/-- C1: for every iteration count N ≥ 0, a cleanly completed run produces a
metrics sequence of exactly N records, tagged with iteration indices 0..N-1
in increasing order, and the event trace shows one checkpoint save performed
immediately after each record is appended (the `train n`, `append n`,
`save n` pattern for n = 0..N-1). -/
theorem claimC1_metrics_sequence {σ : Type} (t : Trainer σ) (root : String)
    (prior : Option String) (N : Nat) (cfg : Config) (a0 : σ) (s' : RunState σ)
    (h : runHarness t root prior N cfg a0 = (s', none)) :
    s'.results.length = N ∧
    s'.episode_data.length = N ∧
    s'.episode_data.map Episode.n = List.range N ∧
    s'.events = [Event.rayInit] ++ restoreEvents prior ++ loopEvents 0 N ++
      [Event.rayShutdown] := by
  obtain ⟨-, r, d, -, -, -, m, e⟩ := runHarness_ok t root prior N cfg a0 s' h
  exact ⟨r, d, m, e⟩

/-- Witness for C1 at the fake trainer, N = 2. -/
theorem claimC1_witness :
    runHarness fakeTrainer checkpoint_root none 2 [] 0 =
      ((runHarness fakeTrainer checkpoint_root none 2 [] 0).fst, none) ∧
    ((runHarness fakeTrainer checkpoint_root none 2 [] 0).fst.results.length = 2 ∧
     (runHarness fakeTrainer checkpoint_root none 2 [] 0).fst.episode_data.length = 2 ∧
     (runHarness fakeTrainer checkpoint_root none 2 [] 0).fst.episode_data.map
       Episode.n = List.range 2 ∧
     (runHarness fakeTrainer checkpoint_root none 2 [] 0).fst.events =
       [Event.rayInit] ++ restoreEvents none ++ loopEvents 0 2 ++
         [Event.rayShutdown]) :=
  ⟨rfl, claimC1_metrics_sequence fakeTrainer checkpoint_root none 2 [] 0 _ rfl⟩

/-- C3: for every iteration count N ≥ 0, a completed run makes exactly N
`save` calls, each one immediately following the corresponding `train` call
in the trainer-call trace, never interleaved or reordered. -/
theorem claimC3_save_follows_train {σ : Type} (t : Trainer σ) (root : String)
    (prior : Option String) (N : Nat) (cfg : Config) (a0 : σ) (s' : RunState σ)
    (h : runHarness t root prior N cfg a0 = (s', none)) :
    s'.events.filter Event.isTrainSave =
      (List.range N).flatMap (fun n => [Event.trainCall n, Event.saveCall n]) ∧
    s'.events.filter Event.isSaveCall = (List.range N).map Event.saveCall ∧
    (s'.events.filter Event.isSaveCall).length = N := by
  obtain ⟨-, -, -, -, -, -, -, e⟩ := runHarness_ok t root prior N cfg a0 s' h
  rw [e]
  cases prior <;>
    simp [restoreEvents, List.filter_append, filter_trainSave_loopEvents,
      filter_saveCall_loopEvents, List.range_eq_range', Event.isTrainSave,
      Event.isSaveCall]

/-- Witness for C3 at the fake trainer, N = 2. -/
theorem claimC3_witness :
    runHarness fakeTrainer checkpoint_root none 2 [] 0 =
      ((runHarness fakeTrainer checkpoint_root none 2 [] 0).fst, none) ∧
    ((runHarness fakeTrainer checkpoint_root none 2 [] 0).fst.events.filter
        Event.isTrainSave =
      (List.range 2).flatMap (fun n => [Event.trainCall n, Event.saveCall n]) ∧
     (runHarness fakeTrainer checkpoint_root none 2 [] 0).fst.events.filter
        Event.isSaveCall = (List.range 2).map Event.saveCall ∧
     ((runHarness fakeTrainer checkpoint_root none 2 [] 0).fst.events.filter
        Event.isSaveCall).length = 2) :=
  ⟨rfl, claimC3_save_follows_train fakeTrainer checkpoint_root none 2 [] 0 _ rfl⟩

/-- C7: for N = 3 with the fake trainer whose `train()` always returns
min = -200, mean = -150, max = -100, len = 200, the run completes, prints
exactly 3 progress lines whose displayed iteration numbers are 1, 2, 3
(1-indexed, in a 3-character field) with the four statistics formatted to
4 decimal places in a minimum-width-8 field, each followed by the checkpoint
path, and records 3 distinct non-empty checkpoint path strings in order. -/
theorem claimC7_concrete_output :
    (runHarness fakeTrainer checkpoint_root none 3 [] 0).snd = none ∧
    (runHarness fakeTrainer checkpoint_root none 3 [] 0).fst.printed =
      ["  1: Min/Mean/Max reward: -200.0000/-150.0000/-100.0000, len mean: 200.0000. Checkpoint saved to tmp/ppo/mountain-car/checkpoint-1",
       "  2: Min/Mean/Max reward: -200.0000/-150.0000/-100.0000, len mean: 200.0000. Checkpoint saved to tmp/ppo/mountain-car/checkpoint-2",
       "  3: Min/Mean/Max reward: -200.0000/-150.0000/-100.0000, len mean: 200.0000. Checkpoint saved to tmp/ppo/mountain-car/checkpoint-3"] ∧
    (runHarness fakeTrainer checkpoint_root none 3 [] 0).fst.saved_paths =
      ["tmp/ppo/mountain-car/checkpoint-1",
       "tmp/ppo/mountain-car/checkpoint-2",
       "tmp/ppo/mountain-car/checkpoint-3"] ∧
    (runHarness fakeTrainer checkpoint_root none 3 [] 0).fst.saved_paths.Nodup ∧
    ∀ q ∈ (runHarness fakeTrainer checkpoint_root none 3 [] 0).fst.saved_paths,
      q ≠ "" := by
  decide

/-- C8: clearing the checkpoint root before a run (recursive removal with
`ignore_errors=True`) does not raise when the directory does not exist: the
filesystem is returned unchanged with no error. -/
theorem claimC8_rmtree_tolerates_absence (fs : List String)
    (h : fs.contains checkpoint_root = false) :
    clearOldRuns fs = .ok fs := by
  unfold clearOldRuns rmtree
  rw [if_neg]
  · rfl
  · simpa using h

/-- Witness for C8 at the empty filesystem. -/
theorem claimC8_witness :
    ([] : List String).contains checkpoint_root = false ∧
    clearOldRuns [] = .ok ([] : List String) :=
  ⟨rfl, claimC8_rmtree_tolerates_absence [] rfl⟩

/-- C9: the configuration mapping is mutated only before the trainer is
created — the final configuration of every run, successful or aborted, is
exactly the initial configuration with the five overrides applied — and no
iteration of the training loop reads-modifies or writes any configuration
key (the loop leaves the configuration of any state unchanged). -/
theorem claimC9_config_frame {σ : Type} (t : Trainer σ) (root : String)
    (prior : Option String) (N : Nat) (cfg : Config) (a0 : σ) :
    (runHarness t root prior N cfg a0).fst.config = applyOverrides cfg ∧
    ∀ (m n : Nat) (s : RunState σ),
      ((trainLoop t root m n s).fst).config = s.config := by
  refine ⟨?_, trainLoop_config t root⟩
  cases prior with
  | none =>
    simp only [runHarness]
    have hc := trainLoop_config t root N 0
      { agent := a0, config := applyOverrides cfg,
        results := [], episode_data := [], episode_json := [],
        saved_paths := [], printed := [], events := [.rayInit] }
    cases hl : trainLoop t root N 0
        { agent := a0, config := applyOverrides cfg,
          results := [], episode_data := [], episode_json := [],
          saved_paths := [], printed := [], events := [.rayInit] } with
    | mk s1 err =>
      rw [hl] at hc
      cases err <;> simpa [finishRun] using hc
  | some p =>
    simp only [runHarness]
    cases hres : t.restoreF a0 p with
    | error e => rfl
    | ok a =>
      dsimp only
      have hc := trainLoop_config t root N 0
        { agent := a, config := applyOverrides cfg,
          results := [], episode_data := [], episode_json := [],
          saved_paths := [], printed := [],
          events := [.rayInit, .restoreCall p] }
      cases hl : trainLoop t root N 0
          { agent := a, config := applyOverrides cfg,
            results := [], episode_data := [], episode_json := [],
            saved_paths := [], printed := [],
            events := [.rayInit, .restoreCall p] } with
      | mk s1 err =>
        rw [hl] at hc
        cases err <;> simpa [finishRun] using hc

/-- C10: on every run (any trainer, any iteration count, completed or
aborted), the sequences `results`, `episode_data` and `episode_json` have
equal length, and at every index n the JSON string is the serialization of
the episode record, parses back to exactly that record, the record is
tagged with its own position n, and its four statistic fields equal the
corresponding fields of `results[n]` — this is `recordsInv` of the final
state, which is also the state after every iteration of a longer run. -/
theorem claimC10_records_aligned {σ : Type} (t : Trainer σ) (root : String)
    (prior : Option String) (N : Nat) (cfg : Config) (a0 : σ) :
    recordsInv (runHarness t root prior N cfg a0).fst := by
  cases prior with
  | none =>
    simp only [runHarness]
    have hInv := trainLoop_recordsInv t root N 0
      { agent := a0, config := applyOverrides cfg,
        results := [], episode_data := [], episode_json := [],
        saved_paths := [], printed := [], events := [.rayInit] }
      ⟨rfl, rfl, by intro i hi; exact absurd hi (by simp)⟩ rfl
    cases hl : trainLoop t root N 0
        { agent := a0, config := applyOverrides cfg,
          results := [], episode_data := [], episode_json := [],
          saved_paths := [], printed := [], events := [.rayInit] } with
    | mk s1 err =>
      rw [hl] at hInv
      cases err with
      | some e => exact hInv
      | none => exact recordsInv_congr s1 _ rfl rfl rfl hInv
  | some p =>
    simp only [runHarness]
    cases hres : t.restoreF a0 p with
    | error e => exact ⟨rfl, rfl, by intro i hi; exact absurd hi (by simp)⟩
    | ok a =>
      dsimp only
      have hInv := trainLoop_recordsInv t root N 0
        { agent := a, config := applyOverrides cfg,
          results := [], episode_data := [], episode_json := [],
          saved_paths := [], printed := [],
          events := [.rayInit, .restoreCall p] }
        ⟨rfl, rfl, by intro i hi; exact absurd hi (by simp)⟩ rfl
      cases hl : trainLoop t root N 0
          { agent := a, config := applyOverrides cfg,
            results := [], episode_data := [], episode_json := [],
            saved_paths := [], printed := [],
            events := [.rayInit, .restoreCall p] } with
      | mk s1 err =>
        rw [hl] at hInv
        cases err with
        | some e => exact hInv
        | none => exact recordsInv_congr s1 _ rfl rfl rfl hInv

/-- C2: if the trainer's `train` raises on iteration k (0-indexed) — with
`save` and `restore` infallible, so the abort can only come from `train` —
then when the run aborts exactly k completed metrics records exist, no
`save` call occurs for iteration k, and the failure propagates immediately:
the event trace ends at the k-th `train` call with no retry. -/
theorem claimC2_failfast {σ : Type} (t : Trainer σ) (root : String)
    (prior : Option String) (N : Nat) (cfg : Config) (a0 : σ)
    (s' : RunState σ) (e : String)
    (hsave : ∀ a d, ∃ p2, t.saveF a d = Except.ok p2)
    (hrestore : ∀ a q, ∃ a2, t.restoreF a q = Except.ok a2)
    (h : runHarness t root prior N cfg a0 = (s', some e)) :
    ∃ k, k < N ∧ s'.results.length = k ∧
      s'.events = [Event.rayInit] ++ restoreEvents prior ++
        (loopEvents 0 k ++ [Event.trainCall k]) ∧
      Event.saveCall k ∉ s'.events := by
  cases prior with
  | none =>
    simp only [runHarness] at h
    cases hl : trainLoop t root N 0
        { agent := a0, config := applyOverrides cfg,
          results := [], episode_data := [], episode_json := [],
          saved_paths := [], printed := [], events := [.rayInit] } with
    | mk s1 err =>
      rw [hl] at h
      cases err with
      | none => simp only [finishRun, Prod.mk.injEq] at h; exact absurd h.2 (by simp)
      | some e1 =>
        simp only [finishRun, Prod.mk.injEq, Option.some.injEq] at h
        obtain ⟨h1, h2⟩ := h
        subst h1
        subst h2
        obtain ⟨j, hj, -, hr, -, hev⟩ := trainLoop_err t root hsave N 0 _ _ e1 hl
        have heq : s1.events = [Event.rayInit] ++ restoreEvents none ++
            (loopEvents 0 j ++ [Event.trainCall j]) := by
          rw [hev]; simp [restoreEvents]
        refine ⟨j, hj, by simpa using hr, heq, ?_⟩
        rw [heq]
        exact saveCall_not_mem_failTrace j j none le_rfl
  | some p =>
    simp only [runHarness] at h
    cases hres : t.restoreF a0 p with
    | error e1 =>
      obtain ⟨a2, ha⟩ := hrestore a0 p
      rw [ha] at hres
      exact Except.noConfusion hres
    | ok a =>
      simp only [hres] at h
      cases hl : trainLoop t root N 0
          { agent := a, config := applyOverrides cfg,
            results := [], episode_data := [], episode_json := [],
            saved_paths := [], printed := [],
            events := [.rayInit, .restoreCall p] } with
      | mk s1 err =>
        rw [hl] at h
        cases err with
        | none => simp only [finishRun, Prod.mk.injEq] at h; exact absurd h.2 (by simp)
        | some e1 =>
          simp only [finishRun, Prod.mk.injEq, Option.some.injEq] at h
          obtain ⟨h1, h2⟩ := h
          subst h1
          subst h2
          obtain ⟨j, hj, -, hr, -, hev⟩ := trainLoop_err t root hsave N 0 _ _ e1 hl
          have heq : s1.events = [Event.rayInit] ++ restoreEvents (some p) ++
              (loopEvents 0 j ++ [Event.trainCall j]) := by
            rw [hev]; simp [restoreEvents]
          refine ⟨j, hj, by simpa using hr, heq, ?_⟩
          rw [heq]
          exact saveCall_not_mem_failTrace j j (some p) le_rfl

/-- Witness for C2 at the trainer failing on its second train call, N = 3. -/
theorem claimC2_witness :
    (∀ a d, ∃ p2, (failingTrainer 1).saveF a d = Except.ok p2) ∧
    (∀ a q, ∃ a2, (failingTrainer 1).restoreF a q = Except.ok a2) ∧
    runHarness (failingTrainer 1) checkpoint_root none 3 [] 0 =
      ((runHarness (failingTrainer 1) checkpoint_root none 3 [] 0).fst,
        some "train failed") ∧
    (∃ k, k < 3 ∧
      (runHarness (failingTrainer 1) checkpoint_root none 3 [] 0).fst.results.length = k ∧
      (runHarness (failingTrainer 1) checkpoint_root none 3 [] 0).fst.events =
        [Event.rayInit] ++ restoreEvents none ++
          (loopEvents 0 k ++ [Event.trainCall k]) ∧
      Event.saveCall k ∉
        (runHarness (failingTrainer 1) checkpoint_root none 3 [] 0).fst.events) :=
  ⟨fun a d => ⟨(a, d ++ "/checkpoint-" ++ natToString a), rfl⟩,
   fun a _ => ⟨a, rfl⟩,
   rfl,
   claimC2_failfast (failingTrainer 1) checkpoint_root none 3 [] 0 _ "train failed"
     (fun a d => ⟨(a, d ++ "/checkpoint-" ++ natToString a), rfl⟩)
     (fun a _ => ⟨a, rfl⟩) rfl⟩

theorem finishRun_shape {σ : Type} (t : Trainer σ) (root : String) (N : Nat)
    (s0 : RunState σ) :
    ∃ tail,
      (finishRun (trainLoop t root N 0 s0)).fst.events = s0.events ++ tail ∧
      (∀ e ∈ tail, e.isLoopEvent = true ∨ e = Event.rayShutdown) ∧
      (((finishRun (trainLoop t root N 0 s0)).snd = none ∧
          Event.rayShutdown ∈ tail) ∨
       ((∃ er, (finishRun (trainLoop t root N 0 s0)).snd = some er) ∧
          ∀ e ∈ tail, e.isLoopEvent = true)) := by
  obtain ⟨lt, hlt, hloop⟩ := trainLoop_events_tail t root N 0 s0
  cases hl : trainLoop t root N 0 s0 with
  | mk s1 err =>
    rw [hl] at hlt
    cases err with
    | none =>
      refine ⟨lt ++ [Event.rayShutdown], ?_, ?_, .inl ⟨rfl, by simp⟩⟩
      · show s1.events ++ [Event.rayShutdown] = _
        rw [hlt, List.append_assoc]
      · intro e he
        rcases List.mem_append.mp he with he | he
        · exact .inl (hloop e he)
        · simp at he
          exact .inr he
    | some er =>
      exact ⟨lt, hlt, fun e he => .inl (hloop e he), .inr ⟨⟨er, rfl⟩, hloop⟩⟩

/-- C4: on every run — completed or aborted — the `restore` calls in the
event trace are exactly one call with the supplied checkpoint when a prior
checkpoint is given and none when it is omitted, and that call (when
present) occurs immediately after initialization, strictly before every
other event, in particular before the first `train` call. -/
theorem claimC4_restore_position {σ : Type} (t : Trainer σ) (root : String)
    (prior : Option String) (N : Nat) (cfg : Config) (a0 : σ) :
    ∃ tail,
      (runHarness t root prior N cfg a0).fst.events =
        [Event.rayInit] ++ restoreEvents prior ++ tail ∧
      (∀ q, Event.restoreCall q ∉ tail) ∧
      (runHarness t root prior N cfg a0).fst.events.filter Event.isRestoreCall =
        restoreEvents prior := by
  cases prior with
  | none =>
    simp only [runHarness]
    obtain ⟨tail, hev, hall, -⟩ := finishRun_shape t root N
      { agent := a0, config := applyOverrides cfg,
        results := [], episode_data := [], episode_json := [],
        saved_paths := [], printed := [], events := [.rayInit] }
    refine ⟨tail, by simpa [restoreEvents] using hev, ?_, ?_⟩
    · intro q hq
      rcases hall _ hq with h1 | h1
      · simp [Event.isLoopEvent] at h1
      · exact Event.noConfusion h1
    · rw [hev]
      rw [List.filter_append]
      have h2 : tail.filter Event.isRestoreCall = [] := by
        rw [List.filter_eq_nil_iff]
        intro e he
        rcases hall _ he with h1 | h1
        · simp [no_restoreCall_of_loop e h1]
        · subst h1; simp [Event.isRestoreCall]
      rw [h2]
      rfl
  | some p =>
    simp only [runHarness]
    cases hres : t.restoreF a0 p with
    | error e =>
      exact ⟨[], by simp [restoreEvents], by simp, rfl⟩
    | ok a =>
      dsimp only
      obtain ⟨tail, hev, hall, -⟩ := finishRun_shape t root N
        { agent := a, config := applyOverrides cfg,
          results := [], episode_data := [], episode_json := [],
          saved_paths := [], printed := [],
          events := [.rayInit, .restoreCall p] }
      refine ⟨tail, by simpa [restoreEvents] using hev, ?_, ?_⟩
      · intro q hq
        rcases hall _ hq with h1 | h1
        · simp [Event.isLoopEvent] at h1
        · exact Event.noConfusion h1
      · rw [hev]
        rw [List.filter_append]
        have h2 : tail.filter Event.isRestoreCall = [] := by
          rw [List.filter_eq_nil_iff]
          intro e he
          rcases hall _ he with h1 | h1
          · simp [no_restoreCall_of_loop e h1]
          · subst h1; simp [Event.isRestoreCall]
        rw [h2]
        rfl

/-- C5 counterexample: a run whose first `train` call raises terminates with
the error while the runtime context acquired at start (`ray.init`, present
in the trace) is never torn down — `ray.shutdown` is not in the trace, so
teardown does not happen on every exit path. -/
theorem claimC5_counterexample :
    (runHarness (failingTrainer 0) checkpoint_root none 1 [] 0).snd =
      some "train failed" ∧
    Event.rayInit ∈
      (runHarness (failingTrainer 0) checkpoint_root none 1 [] 0).fst.events ∧
    Event.rayShutdown ∉
      (runHarness (failingTrainer 0) checkpoint_root none 1 [] 0).fst.events := by
  decide

/-- C5 (amended): the runtime context is torn down exactly on the clean
completion path — `ray.shutdown` appears in the trace if and only if no
`restore`, `train` or `save` call raised (there is no try/finally, so on a
failing run the context is left dangling). -/
theorem claimC5_teardown_iff_success {σ : Type} (t : Trainer σ) (root : String)
    (prior : Option String) (N : Nat) (cfg : Config) (a0 : σ) :
    (runHarness t root prior N cfg a0).snd = none ↔
      Event.rayShutdown ∈ (runHarness t root prior N cfg a0).fst.events := by
  cases prior with
  | none =>
    simp only [runHarness]
    obtain ⟨tail, hev, -, hcase⟩ := finishRun_shape t root N
      { agent := a0, config := applyOverrides cfg,
        results := [], episode_data := [], episode_json := [],
        saved_paths := [], printed := [], events := [.rayInit] }
    rw [hev]
    rcases hcase with ⟨hnone, hmem⟩ | ⟨⟨er, hsome⟩, hloop⟩
    · rw [hnone]
      simp [hmem]
    · rw [hsome]
      constructor
      · intro hx; exact Option.noConfusion hx
      · intro hx
        rcases List.mem_append.mp hx with hx | hx
        · simp at hx
        · have h1 := hloop _ hx
          simp [Event.isLoopEvent] at h1
  | some p =>
    simp only [runHarness]
    cases hres : t.restoreF a0 p with
    | error e => simp
    | ok a =>
      dsimp only
      obtain ⟨tail, hev, -, hcase⟩ := finishRun_shape t root N
        { agent := a, config := applyOverrides cfg,
          results := [], episode_data := [], episode_json := [],
          saved_paths := [], printed := [],
          events := [.rayInit, .restoreCall p] }
      rw [hev]
      rcases hcase with ⟨hnone, hmem⟩ | ⟨⟨er, hsome⟩, hloop⟩
      · rw [hnone]
        simp [hmem]
      · rw [hsome]
        constructor
        · intro hx; exact Option.noConfusion hx
        · intro hx
          rcases List.mem_append.mp hx with hx | hx
          · simp at hx
          · have h1 := hloop _ hx
            simp [Event.isLoopEvent] at h1

/-- C6 counterexample: the JSON configuration object of the `rllib rollout`
invocation does not equal the recognized configuration overrides applied
before training — the overrides set `log_level` to "WARN" but the rollout
configuration has no `log_level` key (and adds an `env` key instead). -/
theorem claimC6_counterexample :
    lookupKey (applyOverrides []) "log_level" = some (ConfigValue.str "WARN") ∧
    lookupKey configOverrides "log_level" = some (ConfigValue.str "WARN") ∧
    lookupKey rolloutConfig "log_level" = none ∧
    rolloutConfig ≠ configOverrides := by
  decide

/-- C6 (amended): the rollout invocation's checkpoint path lies under the
checkpoint root directory, and its JSON configuration agrees with the
overrides applied before training on the four numeric keys and names the
training environment, but omits the `log_level` override, so it does not
equal the recognized overrides. -/
theorem claimC6_rollout_consistency :
    (∀ cfg0 : Config,
      lookupKey (applyOverrides cfg0) "num_workers" = some (.num 4) ∧
      lookupKey (applyOverrides cfg0) "train_batch_size" = some (.num 10000) ∧
      lookupKey (applyOverrides cfg0) "sgd_minibatch_size" = some (.num 256) ∧
      lookupKey (applyOverrides cfg0) "evaluation_num_episodes" = some (.num 50) ∧
      lookupKey (applyOverrides cfg0) "log_level" = some (.str "WARN")) ∧
    lookupKey rolloutConfig "num_workers" = some (.num 4) ∧
    lookupKey rolloutConfig "train_batch_size" = some (.num 10000) ∧
    lookupKey rolloutConfig "sgd_minibatch_size" = some (.num 256) ∧
    lookupKey rolloutConfig "evaluation_num_episodes" = some (.num 50) ∧
    lookupKey rolloutConfig "env" = some (.str "MountainCar-v0") ∧
    lookupKey rolloutConfig "log_level" = none ∧
    (checkpoint_root ++ "/").data.isPrefixOf rolloutCheckpointPath.data = true := by
  refine ⟨fun cfg0 => ⟨?_, ?_, ?_, ?_, ?_⟩, by decide, by decide, by decide,
    by decide, by decide, by decide, by decide⟩
  · rw [applyOverrides, lookupKey_setKey_ne _ _ _ _ (by decide),
      lookupKey_setKey_ne _ _ _ _ (by decide),
      lookupKey_setKey_ne _ _ _ _ (by decide), lookupKey_setKey_same]
  · rw [applyOverrides, lookupKey_setKey_ne _ _ _ _ (by decide),
      lookupKey_setKey_ne _ _ _ _ (by decide), lookupKey_setKey_same]
  · rw [applyOverrides, lookupKey_setKey_ne _ _ _ _ (by decide),
      lookupKey_setKey_same]
  · rw [applyOverrides, lookupKey_setKey_same]
  · rw [applyOverrides, lookupKey_setKey_ne _ _ _ _ (by decide),
      lookupKey_setKey_ne _ _ _ _ (by decide),
      lookupKey_setKey_ne _ _ _ _ (by decide),
      lookupKey_setKey_ne _ _ _ _ (by decide), lookupKey_setKey_same]

end Academy
